import Mathlib

/-!
Verification of the Vigilant C++ logging SDK (vigilant-cpp).

The definitions below are a shallow embedding of the source files
`src/logger.h` and the logger implementation: log levels, attributes,
the event builder (`Logger::logMessage`), the passthrough line
(`Logger::logPassthrough`), the batcher loop (`Logger::runBatcher`),
the JSON payload builder (`Logger::sendBatch`), the timestamp formatter
(`Logger::timePointToString`), the endpoint formatter
(`Logger::formatEndpoint`) and the construction defaults of `Logger`
and `LoggerBuilder`.

`std::map<std::string, std::string>` is embedded as a key-sorted
association list (`mapInsert` mirrors `operator[]` assignment: it
replaces the value when the key is present and otherwise inserts at
the key's ordered position).  `nlohmann::json` values are embedded as
the inductive `Json`; `jsonSet` mirrors `json::operator[]=`, which
turns a null value into a one-entry object.  Machine integers
(`size_t`, millisecond counts) are embedded as `Nat`; timestamps are
milliseconds since the Unix epoch (the program only stamps
`system_clock::now()`, which is at or after the epoch).
-/

namespace Vigilant

/-- Log levels, from `logger.h` (`enum class LogLevel`). -/
inductive LogLevel where
  | debug
  | info
  | warn
  | error
deriving DecidableEq, Repr

/-- `logLevelToString` from `logger.h`. -/
def logLevelToString : LogLevel → String
  | .debug => "DEBUG"
  | .info => "INFO"
  | .warn => "WARNING"
  | .error => "ERROR"

/-- `struct Attribute` from `logger.h`. -/
structure Attribute where
  key : String
  value : String
deriving DecidableEq, Repr

/-- Lexicographic strict order on character lists, the embedding of
`std::string::operator<`. -/
def charListLt : List Char → List Char → Bool
  | [], [] => false
  | [], _ :: _ => true
  | _ :: _, [] => false
  | a :: as, b :: bs =>
    if a < b then true
    else if a = b then charListLt as bs
    else false

/-- `std::string` comparison used by `std::map<std::string, _>`. -/
def strLt (a b : String) : Bool := charListLt a.data b.data

/-- Ordered-map insertion/assignment, the embedding of
`std::map::operator[] = v`: replace the value if the key is present,
otherwise insert at the key's position in key order. -/
def mapInsert {α : Type} (k : String) (v : α) : List (String × α) → List (String × α)
  | [] => [(k, v)]
  | (k', v') :: rest =>
    if strLt k k' then (k, v) :: (k', v') :: rest
    else if k = k' then (k, v) :: rest
    else (k', v') :: mapInsert k v rest

/-- Ordered-map lookup (`std::map::find`): first entry with the given key. -/
def mapLookup {α : Type} (k : String) : List (String × α) → Option α
  | [] => none
  | (k', v) :: rest => if k = k' then some v else mapLookup k rest

/-- `struct LogMessage` from `logger.h`; the timestamp is milliseconds
since the Unix epoch, the attribute map is a key-sorted association list. -/
structure LogMessage where
  timestamp : Nat
  body : String
  level : LogLevel
  attributes : List (String × String)
deriving DecidableEq, Repr

/-- `Logger::formatEndpoint` from the implementation file. -/
def formatEndpoint (endpoint : String) (insecure : Bool) : String :=
  if insecure then "http://" ++ endpoint ++ "/api/message"
  else "https://" ++ endpoint ++ "/api/message"

/-- The configuration state a constructed `Logger` holds (the fields of
`class Logger` that logging behaviour reads; `endpoint` is stored after
`formatEndpoint`, as in the constructor's initializer list). -/
structure LoggerConfig where
  serviceName : String
  endpoint : String
  token : String
  passthrough : Bool
  noop : Bool
  maxBatchSize : Nat
  batchInterval : Nat
deriving DecidableEq, Repr

/-- The `Logger` constructor (`logger.h` / implementation): stores the
endpoint via `formatEndpoint`, drops `insecure` afterwards. -/
def mkLogger (name endpoint token : String) (passthrough insecure noop : Bool)
    (maxBatchSize batchInterval : Nat) : LoggerConfig :=
  { serviceName := name
    endpoint := formatEndpoint endpoint insecure
    token := token
    passthrough := passthrough
    noop := noop
    maxBatchSize := maxBatchSize
    batchInterval := batchInterval }

/-- Default argument for `passthrough` in the direct `Logger` constructor
declaration (`logger.h`, `bool passthrough = false`). -/
def Logger.defaultPassthrough : Bool := false

/-- Default argument for `insecure` in the direct `Logger` constructor. -/
def Logger.defaultInsecure : Bool := false

/-- Default argument for `noop` in the direct `Logger` constructor. -/
def Logger.defaultNoop : Bool := false

/-- Default argument for `maxBatchSize` in the direct `Logger` constructor. -/
def Logger.defaultMaxBatchSize : Nat := 100

/-- Default argument for `batchInterval` in the direct `Logger`
constructor, in milliseconds. -/
def Logger.defaultBatchIntervalMs : Nat := 100

/-- A direct `Logger` construction that leaves every optional argument at
its declared default. -/
def mkLoggerDefault (name endpoint token : String) : LoggerConfig :=
  mkLogger name endpoint token Logger.defaultPassthrough Logger.defaultInsecure
    Logger.defaultNoop Logger.defaultMaxBatchSize Logger.defaultBatchIntervalMs

/-- The fields of `class LoggerBuilder`. -/
structure LoggerBuilderState where
  serviceName : String
  endpoint : String
  token : String
  passthrough : Bool
  insecure : Bool
  noop : Bool
  maxBatchSize : Nat
  batchInterval : Nat
deriving DecidableEq, Repr

/-- `LoggerBuilder::LoggerBuilder()`: the builder's initial state. -/
def LoggerBuilder.init : LoggerBuilderState :=
  { serviceName := "my_server"
    endpoint := "ingress.vigilant.run"
    token := "tk_1234567890"
    passthrough := true
    insecure := false
    noop := false
    maxBatchSize := 1000
    batchInterval := 100 }

/-- `LoggerBuilder::build()`: forwards every builder field to the
`Logger` constructor. -/
def LoggerBuilder.build (b : LoggerBuilderState) : LoggerConfig :=
  mkLogger b.serviceName b.endpoint b.token b.passthrough b.insecure b.noop
    b.maxBatchSize b.batchInterval

/-- The attribute-merge part of `Logger::logMessage`: the reserved
`service.name` entry is written first, then the caller attributes in
order (`lm.attributes[attr.key] = attr.value`), then, when an error
object was supplied, `lm.attributes["error"] = err->what()`. -/
def eventAttributes (serviceName : String) (attrs : List Attribute)
    (err : Option String) : List (String × String) :=
  let base := List.foldl (fun m a => mapInsert a.key a.value m)
    (mapInsert "service.name" serviceName []) attrs
  match err with
  | some e => mapInsert "error" e base
  | none => base

/-- The formatted line of `Logger::logPassthrough`:
`[LEVEL] message {key=value ...}`, built only from the caller-supplied
attributes. -/
def passthroughLine (level : LogLevel) (message : String)
    (attrs : List Attribute) : String :=
  "[" ++ logLevelToString level ++ "] " ++ message ++ " \x7b"
    ++ String.join (attrs.map (fun a => a.key ++ "=" ++ a.value ++ " ")) ++ "\x7d"

/-- `Logger::logPassthrough`: emits the line when `passthrough_` is set,
otherwise nothing. -/
def logPassthrough (cfg : LoggerConfig) (level : LogLevel) (message : String)
    (attrs : List Attribute) : Option String :=
  if cfg.passthrough then some (passthroughLine level message attrs) else none

/-- `Logger::logMessage`: with `noop_` set it returns immediately;
otherwise it builds the event, pushes it on the queue and then calls
`logPassthrough`.  Returns the new queue and the passthrough output. -/
def logMessage (cfg : LoggerConfig) (level : LogLevel) (message : String)
    (err : Option String) (attrs : List Attribute) (queue : List LogMessage)
    (now : Nat) : List LogMessage × Option String :=
  if cfg.noop then (queue, none)
  else
    (queue ++ [{ timestamp := now, body := message, level := level
                 attributes := eventAttributes cfg.serviceName attrs err }],
      logPassthrough cfg level message attrs)

/-- A public logging call: `Logger::debug/info/warn/error`. -/
inductive Call where
  | debug (message : String) (attrs : List Attribute)
  | info (message : String) (attrs : List Attribute)
  | warn (message : String) (attrs : List Attribute)
  | error (message : String) (err : Option String) (attrs : List Attribute)
deriving DecidableEq, Repr

/-- The level a call carries (`debug/info/warn/error` pass the matching
`LogLevel` to `logMessage`). -/
def Call.level : Call → LogLevel
  | .debug _ _ => .debug
  | .info _ _ => .info
  | .warn _ _ => .warn
  | .error _ _ _ => .error

/-- The message a call carries. -/
def Call.message : Call → String
  | .debug m _ => m
  | .info m _ => m
  | .warn m _ => m
  | .error m _ _ => m

/-- The caller-supplied attributes of a call. -/
def Call.attrs : Call → List Attribute
  | .debug _ a => a
  | .info _ a => a
  | .warn _ a => a
  | .error _ _ a => a

/-- Dispatch of the four public logging entry points to
`Logger::logMessage`: `debug/info/warn` pass `nullptr` for the error,
`error` forwards its optional error object. -/
def runCall (cfg : LoggerConfig) (c : Call) (queue : List LogMessage)
    (now : Nat) : List LogMessage × Option String :=
  match c with
  | .debug m a => logMessage cfg .debug m none a queue now
  | .info m a => logMessage cfg .info m none a queue now
  | .warn m a => logMessage cfg .warn m none a queue now
  | .error m e a => logMessage cfg .error m e a queue now

/-- A sequence of logging calls applied to the queue in order; each call
carries the wall-clock instant at which it is made. -/
def runCalls (cfg : LoggerConfig) : List (Call × Nat) → List LogMessage → List LogMessage
  | [], queue => queue
  | (c, now) :: rest, queue => runCalls cfg rest (runCall cfg c queue now).1

/-- The batcher's mutable state between iterations of the
`Logger::runBatcher` loop: the pending queue (`logQueue_`), the
in-progress batch (the local `batch` vector) and the stop flag
(`stopWorker_`). -/
structure BatcherState where
  queue : List LogMessage
  batch : List LogMessage
  stop : Bool
deriving DecidableEq, Repr

/-- The inner drain loop of `Logger::runBatcher`:
`while (!logQueue_.empty() && batch.size() < maxBatchSize_)` move the
queue front onto the batch.  Returns the remaining queue and the grown
batch. -/
def drainLoop (maxB : Nat) : List LogMessage → List LogMessage → List LogMessage × List LogMessage
  | [], batch => ([], batch)
  | e :: rest, batch =>
    if batch.length < maxB then drainLoop maxB rest (batch ++ [e])
    else (e :: rest, batch)

/-- `Logger::sendBatch` as an effect on the batch: an empty batch is not
sent (early return, batch kept); a non-empty batch is emitted as one
flush and cleared. -/
def sendBatchModel (batch : List LogMessage) : List (List LogMessage) × List LogMessage :=
  if batch = [] then ([], batch) else ([batch], [])

/-- One iteration of the `Logger::runBatcher` loop body, after the
condition wait: with the stop flag set and the queue empty, flush the
residual batch and terminate; otherwise drain up to `maxBatchSize`,
send on the size trigger, then send on the time trigger
(`timerExpired` says whether `now >= nextSendTime`).  Returns the
batches flushed this iteration and `none` when the loop exits. -/
def batcherStep (maxB : Nat) (s : BatcherState) (timerExpired : Bool) :
    List (List LogMessage) × Option BatcherState :=
  if s.stop = true ∧ s.queue = [] then ((sendBatchModel s.batch).1, none)
  else
    let d := drainLoop maxB s.queue s.batch
    let p1 := if maxB ≤ d.2.length then sendBatchModel d.2 else ([], d.2)
    let p2 := if timerExpired = true ∧ p1.2 ≠ [] then sendBatchModel p1.2 else ([], p1.2)
    (p1.1 ++ p2.1, some ⟨d.1, p2.2, s.stop⟩)

/-- What the environment does between two batcher iterations: producers
may append events to the queue (`logMessage` holds the same mutex) and
`shutdown()` may set the stop flag; the condition wait then wakes with
`timerExpired` saying whether the deadline passed. -/
structure BatcherInput where
  news : List LogMessage
  stopReq : Bool
  timerExpired : Bool
deriving DecidableEq, Repr

/-- A run of the `Logger::runBatcher` loop against a sequence of
environment inputs.  Each step first lets the environment enqueue and
possibly request the stop (the flag never reverts: it is or-ed in),
then executes one loop iteration.  Returns all flushed batches, the
final state (`none` once the loop has exited) and the inputs that were
never consumed because the loop had already exited. -/
def batcherRun (maxB : Nat) (s : BatcherState) :
    List BatcherInput → List (List LogMessage) × Option BatcherState × List BatcherInput
  | [] => ([], some s, [])
  | i :: rest =>
    let s1 : BatcherState := ⟨s.queue ++ i.news, s.batch, s.stop || i.stopReq⟩
    match batcherStep maxB s1 i.timerExpired with
    | (sent, none) => (sent, none, rest)
    | (sent, some s2) =>
      let r := batcherRun maxB s2 rest
      (sent ++ r.1, r.2.1, r.2.2)

/-- The merged attribute mapping as the spec's words describe it,
read pointwise (reference definition for the refinement claim about the
attribute merge): the value at key `k` is the error's text when an
error was supplied and `k` is `error`; otherwise the last caller
occurrence of `k`; otherwise the configured service name when `k` is
`service.name`; otherwise absent. -/
def specMergedAttrLookup (sn : String) (attrs : List Attribute)
    (err : Option String) (k : String) : Option String :=
  let fromCaller : Option String :=
    match attrs.reverse.find? (fun a => a.key == k) with
    | some a => some a.value
    | none => none
  let base : Option String :=
    match fromCaller with
    | some v => some v
    | none => if k = "service.name" then some sn else none
  match err with
  | some e => if k = "error" then some e else base
  | none => base

/-- A logger configuration with `noop` and `passthrough` both enabled,
as built by `LoggerBuilder().withNoop().build()`. -/
def noopCfg : LoggerConfig :=
  mkLogger "my_server" "ingress.vigilant.run" "tk_1234567890" true false true 1000 100

/-- A logger configuration with `passthrough` enabled and `noop`
disabled (the builder defaults). -/
def liveCfg : LoggerConfig :=
  mkLogger "svc" "ingress.vigilant.run" "tk_1234567890" true false false 1000 100

/-- A second live configuration differing from `liveCfg` in service
name, endpoint, token and batch parameters. -/
def otherCfg : LoggerConfig :=
  mkLogger "other" "example.com" "tk_x" true true false 50 10

/-!
Timestamps.  `Logger::timePointToString` converts the event's
wall-clock time to UTC civil time with `gmtime`, formats it with
`strftime("%Y-%m-%dT%H:%M:%S")` and appends the zero-padded millisecond
remainder and `'Z'`.  `gmtime` for times at or after the epoch is the
standard civil-from-days calendar computation, embedded below on
milliseconds-since-epoch. -/

/-- Whole days since the Unix epoch. -/
def daysOf (t : Nat) : Nat := t / 86400000

/-- Days shifted so day 0 is 0000-03-01 (start of a 400-year era). -/
def zOf (t : Nat) : Nat := daysOf t + 719468

/-- The 400-year era of the day. -/
def eraOf (t : Nat) : Nat := zOf t / 146097

/-- Day within the era, in `[0, 146096]`. -/
def doeOf (t : Nat) : Nat := zOf t % 146097

/-- Year within the era, in `[0, 399]`. -/
def yoeOf (t : Nat) : Nat :=
  (doeOf t - doeOf t / 1460 + doeOf t / 36524 - doeOf t / 146096) / 365

/-- Day within the March-based year, in `[0, 365]`. -/
def doyOf (t : Nat) : Nat := doeOf t - (365 * yoeOf t + yoeOf t / 4 - yoeOf t / 100)

/-- March-based month index, in `[0, 11]`. -/
def mpOf (t : Nat) : Nat := (5 * doyOf t + 2) / 153

/-- Civil day of month, in `[1, 31]`. -/
def dayOf (t : Nat) : Nat := doyOf t - (153 * mpOf t + 2) / 5 + 1

/-- Civil month, in `[1, 12]`. -/
def monthOf (t : Nat) : Nat := if mpOf t < 10 then mpOf t + 3 else mpOf t - 9

/-- Civil year. -/
def yearOf (t : Nat) : Nat := yoeOf t + eraOf t * 400 + (if monthOf t ≤ 2 then 1 else 0)

/-- Seconds elapsed within the UTC day. -/
def secondsOfDay (t : Nat) : Nat := t / 1000 % 86400

/-- UTC hour of day. -/
def hourOf (t : Nat) : Nat := secondsOfDay t / 3600

/-- UTC minute. -/
def minuteOf (t : Nat) : Nat := secondsOfDay t % 3600 / 60

/-- UTC second. -/
def secondOf (t : Nat) : Nat := secondsOfDay t % 60

/-- The digits of a positive number, most significant first (decimal
printing). -/
def natCharsGo : Nat → List Char
  | 0 => []
  | n + 1 => natCharsGo ((n + 1) / 10) ++ [Nat.digitChar ((n + 1) % 10)]
decreasing_by exact Nat.div_lt_self (Nat.succ_pos n) (by decide)

/-- Decimal printing of a natural number (`%Y` of `strftime`). -/
def natChars (n : Nat) : List Char := if n = 0 then ['0'] else natCharsGo n

/-- Zero-padded two-digit decimal printing (`%m %d %H %M %S`). -/
def pad2Chars (n : Nat) : List Char := if n < 10 then ['0', Nat.digitChar n] else natChars n

/-- Zero-padded three-digit decimal printing
(`setfill('0') << setw(3)` for the millisecond part). -/
def pad3Chars (n : Nat) : List Char := if n < 100 then '0' :: pad2Chars n else natChars n

/-- The characters `Logger::timePointToString` produces. -/
def isoChars (t : Nat) : List Char :=
  natChars (yearOf t) ++ '-' :: pad2Chars (monthOf t) ++ '-' :: pad2Chars (dayOf t)
    ++ 'T' :: pad2Chars (hourOf t) ++ ':' :: pad2Chars (minuteOf t)
    ++ ':' :: pad2Chars (secondOf t) ++ '.' :: pad3Chars (t % 1000) ++ ['Z']

/-- `Logger::timePointToString` on milliseconds since the epoch. -/
def timePointToString (t : Nat) : String := String.mk (isoChars t)

/-- Consume one expected character. -/
def expectChar (c : Char) : List Char → Option (List Char)
  | [] => none
  | x :: rest => if x = c then some rest else none

/-- Consume exactly `k` decimal digits. -/
def expectDigits : Nat → List Char → Option (List Char)
  | 0, cs => some cs
  | _ + 1, [] => none
  | k + 1, x :: rest => if x.isDigit then expectDigits k rest else none

/-- Shape check for `YYYY-MM-DDTHH:MM:SS.mmmZ` (ISO-8601 extended UTC
with millisecond precision and a trailing `Z`). -/
def checkIsoChars (cs : List Char) : Bool :=
  (do
    let r ← expectDigits 4 cs
    let r ← expectChar '-' r
    let r ← expectDigits 2 r
    let r ← expectChar '-' r
    let r ← expectDigits 2 r
    let r ← expectChar 'T' r
    let r ← expectDigits 2 r
    let r ← expectChar ':' r
    let r ← expectDigits 2 r
    let r ← expectChar ':' r
    let r ← expectDigits 2 r
    let r ← expectChar '.' r
    let r ← expectDigits 3 r
    let r ← expectChar 'Z' r
    if r = [] then some () else none).isSome

/-- Shape check for timestamp strings. -/
def isIso8601MillisZ (s : String) : Bool := checkIsoChars s.data

/-!
The JSON payload of `Logger::sendBatch`, at the `nlohmann::json`
value level: `operator[]=` on an object assigns in key order
(`std::map`-backed), and on a default-constructed (null) value first
turns it into an object. -/

/-- `nlohmann::json` values reachable in `sendBatch` payloads. -/
inductive Json where
  | null : Json
  | str : String → Json
  | arr : List Json → Json
  | obj : List (String × Json) → Json

/-- `json::operator[]= v`: assign a member, converting null to an
object first. -/
def jsonSet (k : String) (v : Json) : Json → Json
  | .obj fs => .obj (mapInsert k v fs)
  | _ => .obj (mapInsert k v [])

/-- The `attributesJson` loop of `sendBatch`: start from a
default-constructed value and assign every attribute of the event. -/
def attrJsonOf (attrs : List (String × String)) : Json :=
  attrs.foldl (fun j kv => jsonSet kv.1 (Json.str kv.2) j) Json.null

/-- The object fields the attribute loop produces for a non-empty map. -/
def attrFields (attrs : List (String × String)) : List (String × Json) :=
  List.foldl (fun m kv => mapInsert kv.1 (Json.str kv.2) m) [] attrs

/-- The `msgJson` of one event in `sendBatch`: assigns `timestamp`,
`body`, `level`, `attributes` in that order. -/
def logEntryJson (m : LogMessage) : Json :=
  jsonSet "attributes" (attrJsonOf m.attributes)
    (jsonSet "level" (Json.str (logLevelToString m.level))
      (jsonSet "body" (Json.str m.body)
        (jsonSet "timestamp" (Json.str (timePointToString m.timestamp)) Json.null)))

/-- `Logger::sendBatch` as a serialization function: an empty batch is
not sent; otherwise the payload assigns `token`, `type`, then the
`logs` array holding one entry per event in batch order. -/
def sendBatchJson (token : String) (batch : List LogMessage) : Option Json :=
  if batch = [] then none
  else
    some (jsonSet "logs" (Json.arr (batch.map logEntryJson))
      (jsonSet "type" (Json.str "logs")
        (jsonSet "token" (Json.str token) Json.null)))

/-- Read a JSON string value. -/
def asString : Json → Option String
  | .str s => some s
  | _ => none

/-- Read an all-string-valued object's fields back as a string map. -/
def parseAttrs : List (String × Json) → Option (List (String × String))
  | [] => some []
  | (k, v) :: rest =>
    match asString v, parseAttrs rest with
    | some s, some r => some ((k, s) :: r)
    | _, _ => none

/-- Read one `logs` entry back: its level string, body and attributes. -/
def parseEntry : Json → Option (String × String × List (String × String))
  | .obj fields =>
    match mapLookup "level" fields, mapLookup "body" fields,
        mapLookup "attributes" fields with
    | some (Json.str lv), some (Json.str bd), some (Json.obj afs) =>
      match parseAttrs afs with
      | some ats => some (lv, bd, ats)
      | none => none
    | _, _, _ => none
  | _ => none

/-- Read every entry of the `logs` array. -/
def parseEntries : List Json → Option (List (String × String × List (String × String)))
  | [] => some []
  | j :: rest =>
    match parseEntry j, parseEntries rest with
    | some e, some r => some (e :: r)
    | _, _ => none

/-- Parse a whole `sendBatch` document back into its entries. -/
def parseLogsDoc : Json → Option (List (String × String × List (String × String)))
  | .obj fields =>
    match mapLookup "logs" fields with
    | some (Json.arr xs) => parseEntries xs
    | _ => none
  | _ => none

/-- The plain string map obtained by re-inserting the event attributes
in order (what the parsed `attributes` object denotes). -/
def strFold (attrs : List (String × String)) : List (String × String) :=
  List.foldl (fun m kv => mapInsert kv.1 kv.2 m) [] attrs

theorem drainLoop_spec (maxB : Nat) :
    ∀ (q b : List LogMessage), b.length ≤ maxB →
      drainLoop maxB q b = (q.drop (maxB - b.length), b ++ q.take (maxB - b.length)) := by
  intro q
  induction q with
  | nil => intro b _; simp [drainLoop]
  | cons e rest ih =>
    intro b hb
    by_cases h : b.length < maxB
    · have hlen : (b ++ [e]).length = b.length + 1 := by simp
      have hrec := ih (b ++ [e]) (by omega)
      rw [hlen] at hrec
      have hk : maxB - b.length = (maxB - (b.length + 1)) + 1 := by omega
      rw [drainLoop, if_pos h, hrec, hk]
      simp [List.append_assoc]
    · have hbe : maxB - b.length = 0 := by omega
      rw [drainLoop, if_neg h, hbe]
      simp

theorem drainLoop_conserve (maxB : Nat) :
    ∀ (q b : List LogMessage),
      (drainLoop maxB q b).2 ++ (drainLoop maxB q b).1 = b ++ q := by
  intro q
  induction q with
  | nil => intro b; simp [drainLoop]
  | cons e rest ih =>
    intro b
    by_cases h : b.length < maxB
    · rw [drainLoop, if_pos h]
      have := ih (b ++ [e])
      rw [this]
      simp
    · rw [drainLoop, if_neg h]

theorem drainLoop_removed (maxB : Nat) :
    ∀ (q b : List LogMessage),
      q.length - ((drainLoop maxB q b).1).length ≤ maxB - b.length := by
  intro q
  induction q with
  | nil => intro b; simp [drainLoop]
  | cons e rest ih =>
    intro b
    by_cases h : b.length < maxB
    · rw [drainLoop, if_pos h]
      have := ih (b ++ [e])
      simp only [List.length_append, List.length_cons, List.length_nil] at this ⊢
      omega
    · rw [drainLoop, if_neg h]
      simp

theorem batcherStep_fresh (maxB : Nat) (q : List LogMessage) (stop timer : Bool)
    (hpos : 0 < maxB) (hlen : maxB ≤ q.length) :
    batcherStep maxB ⟨q, [], stop⟩ timer = ([q.take maxB], some ⟨q.drop maxB, [], stop⟩) := by
  have hq : q ≠ [] := by
    intro hnil
    rw [hnil] at hlen
    simp at hlen
    omega
  have hdrain := drainLoop_spec maxB q [] (by simp)
  simp only [List.length_nil, Nat.sub_zero, List.nil_append] at hdrain
  have htake : (q.take maxB).length = maxB := by
    rw [List.length_take]
    omega
  have htakene : q.take maxB ≠ [] := by
    intro hnil
    rw [hnil] at htake
    simp at htake
    omega
  rw [batcherStep]
  rw [if_neg (by simp [hq])]
  simp only [hdrain, htake, Nat.le_refl, if_pos, sendBatchModel, if_neg htakene]
  simp

/-- C1: for every burst of `N ≥ maxBatchSize` events sitting in the queue
before the batcher drains (fresh in-progress batch), the iteration sends
exactly one batch holding exactly the first `maxBatchSize` enqueued
events in FIFO order; in a full run the first flushed batch is that
prefix; and a single drain never removes more than `maxBatchSize`
events from the queue. -/
theorem c1_first_batch (q : List LogMessage) (maxB : Nat) (stop timer : Bool)
    (hpos : 0 < maxB) (hlen : maxB ≤ q.length) :
    batcherStep maxB ⟨q, [], stop⟩ timer = ([q.take maxB], some ⟨q.drop maxB, [], stop⟩)
    ∧ (q.take maxB).length = maxB
    ∧ (∀ (inp : BatcherInput) (inputs : List BatcherInput),
        ((batcherRun maxB ⟨q, [], stop⟩ (inp :: inputs)).1).head? = some (q.take maxB))
    ∧ (∀ (q₀ b₀ : List LogMessage), q₀.length - ((drainLoop maxB q₀ b₀).1).length ≤ maxB) := by
  refine ⟨batcherStep_fresh maxB q stop timer hpos hlen, ?_, ?_, ?_⟩
  · rw [List.length_take]
    omega
  · intro inp inputs
    have hstep := batcherStep_fresh maxB (q ++ inp.news) (stop || inp.stopReq)
      inp.timerExpired hpos (by simp; omega)
    have htake : (q ++ inp.news).take maxB = q.take maxB :=
      List.take_append_of_le_length hlen
    rw [htake] at hstep
    simp only [batcherRun, hstep]
    rfl
  · intro q₀ b₀
    have := drainLoop_removed maxB q₀ b₀
    omega

/-- C1 witness at a concrete burst: two events queued, `maxBatchSize = 1`. -/
theorem c1_first_batch_witness :
    (batcherStep 1 ⟨[⟨0, "a", LogLevel.info, [("service.name", "svc")]⟩,
        ⟨1, "b", LogLevel.info, [("service.name", "svc")]⟩], [], false⟩ false
      = ([[⟨0, "a", LogLevel.info, [("service.name", "svc")]⟩]],
          some ⟨[⟨1, "b", LogLevel.info, [("service.name", "svc")]⟩], [], false⟩))
    ∧ ([(⟨0, "a", LogLevel.info, [("service.name", "svc")]⟩ : LogMessage),
        ⟨1, "b", LogLevel.info, [("service.name", "svc")]⟩].take 1).length = 1 := by
  have h := c1_first_batch
    [⟨0, "a", LogLevel.info, [("service.name", "svc")]⟩,
     ⟨1, "b", LogLevel.info, [("service.name", "svc")]⟩] 1 false false
    (by decide) (by decide)
  exact ⟨h.1, h.2.1⟩

theorem batcherStep_terminal (maxB : Nat) (s : BatcherState) (t : Bool)
    (sent : List (List LogMessage)) (h : batcherStep maxB s t = (sent, none)) :
    s.stop = true ∧ s.queue = [] ∧ sent.flatten = s.batch := by
  by_cases hc : s.stop = true ∧ s.queue = []
  · rw [batcherStep, if_pos hc, Prod.mk.injEq] at h
    obtain ⟨hs, -⟩ := h
    refine ⟨hc.1, hc.2, ?_⟩
    rw [← hs]
    by_cases hb : s.batch = []
    · rw [sendBatchModel, if_pos hb]
      simp [hb]
    · rw [sendBatchModel, if_neg hb]
      simp
  · rw [batcherStep, if_neg hc] at h
    have := congrArg Prod.snd h
    simp at this

theorem batcherStep_conserve (maxB : Nat) (s : BatcherState) (t : Bool)
    (sent : List (List LogMessage)) (s' : BatcherState)
    (h : batcherStep maxB s t = (sent, some s')) :
    sent.flatten ++ (s'.batch ++ s'.queue) = s.batch ++ s.queue := by
  by_cases hc : s.stop = true ∧ s.queue = []
  · rw [batcherStep, if_pos hc] at h
    have := congrArg Prod.snd h
    simp at this
  · rw [batcherStep, if_neg hc] at h
    have hcons := drainLoop_conserve maxB s.queue s.batch
    set d := drainLoop maxB s.queue s.batch with hd
    simp only [sendBatchModel] at h
    split_ifs at h <;>
      (injection h with hsent hsnd
       injection hsnd with hrec
       subst hrec
       subst hsent) <;>
      simp only [List.flatten_cons, List.flatten_nil, List.flatten_append,
        List.append_nil, List.nil_append] <;>
      exact hcons

theorem batcherRun_flushes_all (maxB : Nat) :
    ∀ (inputs : List BatcherInput) (s : BatcherState)
      (sent : List (List LogMessage)) (rest : List BatcherInput),
      batcherRun maxB s inputs = (sent, none, rest) →
        ∃ consumed, inputs = consumed ++ rest
          ∧ sent.flatten = s.batch ++ s.queue ++ (consumed.map BatcherInput.news).flatten := by
  intro inputs
  induction inputs with
  | nil =>
    intro s sent rest h
    rw [batcherRun, Prod.mk.injEq, Prod.mk.injEq] at h
    exact absurd h.2.1 (by simp)
  | cons i rest' ih =>
    intro s sent rest h
    rw [batcherRun] at h
    rcases hstep : batcherStep maxB ⟨s.queue ++ i.news, s.batch, s.stop || i.stopReq⟩
        i.timerExpired with ⟨sent₀, os⟩
    rw [hstep] at h
    cases os with
    | none =>
      simp only [Prod.mk.injEq] at h
      obtain ⟨hsent, -, hrest⟩ := h
      obtain ⟨hstop, hq, hflat⟩ := batcherStep_terminal maxB _ _ _ hstep
      simp only at hq hflat
      have hqe : s.queue = [] := by
        rcases List.append_eq_nil.mp hq with ⟨h1, -⟩
        exact h1
      have hne : i.news = [] := by
        rcases List.append_eq_nil.mp hq with ⟨-, h2⟩
        exact h2
      refine ⟨[i], by simp [hrest], ?_⟩
      rw [← hsent, hflat]
      simp [hqe, hne]
    | some s2 =>
      rcases hr : batcherRun maxB s2 rest' with ⟨sent', pr⟩
      rcases pr with ⟨os', rem'⟩
      simp only [hr, Prod.mk.injEq] at h
      obtain ⟨hsent, hos, hrest⟩ := h
      obtain ⟨c', hc'eq, hc'flat⟩ := ih s2 sent' rest (by rw [hr, hos, hrest])
      have hcons := batcherStep_conserve maxB _ _ _ _ hstep
      simp only at hcons
      refine ⟨i :: c', by simp [hc'eq, hrest], ?_⟩
      rw [← hsent]
      rw [List.flatten_append, hc'flat]
      simp only [List.map_cons, List.flatten_cons]
      rw [← List.append_assoc, ← List.append_assoc,
        List.append_assoc sent₀.flatten s2.batch s2.queue, hcons]
      simp [List.append_assoc]

/-- C2: the batcher loop terminates only when the stop flag is set and
the queue is empty, flushing any non-empty in-progress batch on that
terminal step; consequently in every terminating run all events that
entered the queue while the loop was alive — in particular every event
enqueued strictly before `shutdown()` — appear in the flushed batches,
in FIFO order. -/
theorem c2_shutdown_drain :
    (∀ (maxB : Nat) (s : BatcherState) (t : Bool) (sent : List (List LogMessage)),
        batcherStep maxB s t = (sent, none) →
          s.stop = true ∧ s.queue = [] ∧ sent.flatten = s.batch)
    ∧ (∀ (maxB : Nat) (s : BatcherState) (inputs : List BatcherInput)
          (sent : List (List LogMessage)) (rest : List BatcherInput),
        batcherRun maxB s inputs = (sent, none, rest) →
          ∃ consumed, inputs = consumed ++ rest
            ∧ sent.flatten = s.batch ++ s.queue ++ (consumed.map BatcherInput.news).flatten) :=
  ⟨fun maxB s t sent h => batcherStep_terminal maxB s t sent h,
   fun maxB s inputs sent rest h => batcherRun_flushes_all maxB inputs s sent rest h⟩

/-- C2 witness: a concrete run where one event is enqueued, then the
stop is requested; the loop flushes the event and terminates, leaving
the trailing input unconsumed. -/
theorem c2_shutdown_drain_witness :
    ∃ consumed,
      ([⟨[⟨0, "boot", LogLevel.info, [("service.name", "svc")]⟩], false, false⟩,
          ⟨[], true, false⟩, ⟨[], false, true⟩] : List BatcherInput)
        = consumed ++ [⟨[], false, true⟩]
      ∧ ([[⟨0, "boot", LogLevel.info, [("service.name", "svc")]⟩]] :
            List (List LogMessage)).flatten
          = ([] : List LogMessage) ++ ([] : List LogMessage)
            ++ (consumed.map BatcherInput.news).flatten :=
  c2_shutdown_drain.2 5 ⟨[], [], false⟩
    [⟨[⟨0, "boot", LogLevel.info, [("service.name", "svc")]⟩], false, false⟩,
      ⟨[], true, false⟩, ⟨[], false, true⟩]
    [[⟨0, "boot", LogLevel.info, [("service.name", "svc")]⟩]]
    [⟨[], false, true⟩] (by decide)

/-- C3 counterexample: with `passthrough` and `noop` both enabled, a log
call writes no passthrough line at all — `Logger::logMessage` returns
before reaching `logPassthrough` when `noop_` is set, so noop does not
only short-circuit the asynchronous path. -/
theorem c3_counterexample :
    noopCfg.passthrough = true ∧ noopCfg.noop = true
    ∧ (runCall noopCfg (Call.info "hello" []) [] 0).2 = none := by
  refine ⟨rfl, rfl, rfl⟩

/-- C3 (amended): when passthrough is enabled and noop is disabled,
every call to debug/info/warn/error synchronously writes exactly one
line formatted `[LEVEL] message {key=value ...}` to the local text
stream. -/
theorem c3_passthrough_line (cfg : LoggerConfig) (c : Call)
    (q : List LogMessage) (now : Nat)
    (hp : cfg.passthrough = true) (hn : cfg.noop = false) :
    (runCall cfg c q now).2 = some (passthroughLine c.level c.message c.attrs) := by
  cases c <;>
    simp [runCall, logMessage, logPassthrough, hp, hn, Call.level, Call.message, Call.attrs]

/-- C3 witness: the amended statement at a concrete configuration and call. -/
theorem c3_passthrough_line_witness :
    (runCall liveCfg (Call.info "hello" [⟨"a", "1"⟩]) [] 0).2
      = some (passthroughLine LogLevel.info "hello" [⟨"a", "1"⟩]) :=
  c3_passthrough_line liveCfg (Call.info "hello" [⟨"a", "1"⟩]) [] 0 rfl rfl

theorem batcherStep_empty (maxB : Nat) (st t : Bool) :
    (batcherStep maxB ⟨[], [], st⟩ t).1 = []
    ∧ (batcherStep maxB ⟨[], [], st⟩ t).2
        = if st = true then none else some ⟨[], [], st⟩ := by
  cases st <;> simp [batcherStep, drainLoop, sendBatchModel]

theorem batcherRun_no_news (maxB : Nat) :
    ∀ (inputs : List BatcherInput) (st : Bool),
      (∀ i ∈ inputs, i.news = []) →
      (batcherRun maxB ⟨[], [], st⟩ inputs).1 = [] := by
  intro inputs
  induction inputs with
  | nil => intro st _; rfl
  | cons i rest ih =>
    intro st hnews
    have hi : i.news = [] := hnews i (by simp)
    have he := batcherStep_empty maxB (st || i.stopReq) i.timerExpired
    have hpair : batcherStep maxB ⟨[], [], st || i.stopReq⟩ i.timerExpired
        = ([], if (st || i.stopReq) = true then none else some ⟨[], [], st || i.stopReq⟩) :=
      Prod.ext he.1 he.2
    cases hst : (st || i.stopReq) with
    | true =>
      rw [hst] at hpair
      simp only [if_pos] at hpair
      rw [batcherRun]
      simp only [List.nil_append, hi, List.append_nil, hst, hpair]
    | false =>
      rw [hst] at hpair
      simp only [Bool.false_eq_true, if_neg, if_false] at hpair
      rw [batcherRun]
      simp only [List.nil_append, hi, List.append_nil, hst, hpair]
      have := ih false (fun j hj => hnews j (by simp [hj]))
      simp only [this, List.append_nil]

/-- C4: with `noop` enabled, no sequence of debug/info/warn/error calls
ever enqueues an event (each call leaves the queue unchanged and emits
nothing), and a batcher that never receives an enqueued event never
sends a batch. -/
theorem c4_noop (cfg : LoggerConfig) (hn : cfg.noop = true) :
    (∀ (c : Call) (q : List LogMessage) (now : Nat), runCall cfg c q now = (q, none))
    ∧ (∀ (calls : List (Call × Nat)) (q : List LogMessage), runCalls cfg calls q = q)
    ∧ (∀ (maxB : Nat) (st : Bool) (inputs : List BatcherInput),
        (∀ i ∈ inputs, i.news = []) →
        (batcherRun maxB ⟨[], [], st⟩ inputs).1 = []) := by
  have hcall : ∀ (c : Call) (q : List LogMessage) (now : Nat),
      runCall cfg c q now = (q, none) := by
    intro c q now
    cases c <;> simp [runCall, logMessage, hn]
  refine ⟨hcall, ?_, fun maxB st inputs h => batcherRun_no_news maxB inputs st h⟩
  intro calls
  induction calls with
  | nil => intro q; rfl
  | cons p rest ih =>
    intro q
    rw [runCalls, hcall p.1 q p.2]
    exact ih q

/-- C4 witness: a concrete noop configuration, a concrete call sequence
leaving the queue empty, and a concrete batcher run sending nothing. -/
theorem c4_noop_witness :
    runCalls noopCfg [(Call.info "a" [], 0), (Call.error "b" (some "boom") [], 1)] [] = []
    ∧ (batcherRun 100 ⟨[], [], false⟩ [⟨[], true, true⟩]).1 = [] :=
  ⟨(c4_noop noopCfg rfl).2.1 [(Call.info "a" [], 0), (Call.error "b" (some "boom") [], 1)] [],
   (c4_noop noopCfg rfl).2.2 100 false [⟨[], true, true⟩] (by decide)⟩

theorem mapLookup_insert {α : Type} (k k' : String) (v : α) :
    ∀ (m : List (String × α)),
      mapLookup k (mapInsert k' v m) = if k = k' then some v else mapLookup k m := by
  intro m
  induction m with
  | nil => simp [mapInsert, mapLookup]
  | cons p rest ih =>
    obtain ⟨k₀, v₀⟩ := p
    rw [mapInsert]
    by_cases h1 : strLt k' k₀ = true
    · rw [if_pos h1]
      rfl
    · rw [if_neg h1]
      by_cases h2 : k' = k₀
      · rw [if_pos h2]
        by_cases hk : k = k'
        · simp [mapLookup, hk, h2]
        · have hk0 : ¬ k = k₀ := fun he => hk (he.trans h2.symm)
          simp [mapLookup, hk, hk0]
      · rw [if_neg h2]
        by_cases hk : k = k₀
        · have hkk' : ¬ k = k' := fun he => h2 (he.symm.trans hk)
          have h0 : ¬ k₀ = k' := fun he => h2 he.symm
          simp [mapLookup, hk, hkk', h0]
        · simp [mapLookup, hk, ih]

theorem mapLookup_foldl_attrs (k : String) :
    ∀ (attrs : List Attribute) (m₀ : List (String × String)),
      mapLookup k (List.foldl (fun m a => mapInsert a.key a.value m) m₀ attrs)
        = match attrs.reverse.find? (fun a => a.key == k) with
          | some a => some a.value
          | none => mapLookup k m₀ := by
  intro attrs
  induction attrs with
  | nil => intro m₀; rfl
  | cons a rest ih =>
    intro m₀
    rw [List.foldl_cons, ih, List.reverse_cons, List.find?_append]
    rcases hfind : rest.reverse.find? (fun a => a.key == k) with - | b
    · rw [hfind]
      simp only [Option.none_or]
      rw [mapLookup_insert]
      cases hpa : (a.key == k) with
      | true =>
        have hk : k = a.key := (beq_iff_eq.mp hpa).symm
        simp [List.find?, hpa, hk]
      | false =>
        have hk : ¬ k = a.key := fun he => by simp [he] at hpa
        simp [List.find?, hpa, hk]
    · rw [hfind]
      simp

theorem mapLookup_foldl_pairs {γ α : Type} (g : γ → α) (k : String) :
    ∀ (l : List (String × γ)) (m₀ : List (String × α)),
      mapLookup k (List.foldl (fun m kv => mapInsert kv.1 (g kv.2) m) m₀ l)
        = match l.reverse.find? (fun kv => kv.1 == k) with
          | some kv => some (g kv.2)
          | none => mapLookup k m₀ := by
  intro l
  induction l with
  | nil => intro m₀; rfl
  | cons a rest ih =>
    intro m₀
    rw [List.foldl_cons, ih, List.reverse_cons, List.find?_append]
    rcases hfind : rest.reverse.find? (fun kv => kv.1 == k) with - | b
    · rw [hfind]
      simp only [Option.none_or]
      rw [mapLookup_insert]
      cases hpa : (a.1 == k) with
      | true =>
        have hk : k = a.1 := (beq_iff_eq.mp hpa).symm
        simp [List.find?, hpa, hk]
      | false =>
        have hk : ¬ k = a.1 := fun he => by simp [he] at hpa
        simp [List.find?, hpa, hk]
    · rw [hfind]
      simp

/-- C5: for every log call that builds an event, the attribute map held
by the event agrees pointwise with the spec's merge description: start
from `service.name ↦ serviceName`, insert the caller attributes in
order with later writes overwriting earlier ones (a caller-supplied
`service.name` overwrites the reserved value, the last duplicate wins),
then, when an error object was supplied, set `error` to its textual
description. -/
theorem c5_attribute_merge (sn : String) (attrs : List Attribute)
    (err : Option String) (k : String) :
    mapLookup k (eventAttributes sn attrs err) = specMergedAttrLookup sn attrs err k := by
  have hbase : mapLookup k (List.foldl (fun m a => mapInsert a.key a.value m)
      (mapInsert "service.name" sn []) attrs)
      = match attrs.reverse.find? (fun a => a.key == k) with
        | some a => some a.value
        | none => if k = "service.name" then some sn else none := by
    rw [mapLookup_foldl_attrs]
    rcases h : attrs.reverse.find? (fun a => a.key == k) with - | b
    · rw [h, mapLookup_insert]
      rfl
    · rw [h]
  cases err with
  | none =>
    simp only [eventAttributes, specMergedAttrLookup]
    rw [hbase]
    rcases h : attrs.reverse.find? (fun a => a.key == k) with - | b <;> rw [h]
  | some e =>
    simp only [eventAttributes, specMergedAttrLookup]
    rw [mapLookup_insert, hbase]
    by_cases hke : k = "error"
    · rw [if_pos hke, if_pos hke]
    · rw [if_neg hke, if_neg hke]
      rcases h : attrs.reverse.find? (fun a => a.key == k) with - | b <;> rw [h]

/-- C10: the passthrough line of a log call is computed from the
caller-supplied attributes alone — it does not depend on the configured
service name or on the supplied error object (so the injected
`service.name` and `error` attributes never appear in it) — while the
shipped event does carry those injected attributes, so the two can show
different attribute sets for the same call. -/
theorem c10_passthrough_only_caller_attrs :
    (∀ (cfg cfg' : LoggerConfig) (level : LogLevel) (msg : String)
        (err err' : Option String) (attrs : List Attribute)
        (q q' : List LogMessage) (now now' : Nat),
        cfg.passthrough = cfg'.passthrough → cfg.noop = cfg'.noop →
          (logMessage cfg level msg err attrs q now).2
            = (logMessage cfg' level msg err' attrs q' now').2)
    ∧ (runCall liveCfg (Call.error "oops" (some "boom") []) [] 7
        = ([⟨7, "oops", LogLevel.error, [("error", "boom"), ("service.name", "svc")]⟩],
            some "[ERROR] oops {}")) := by
  constructor
  · intro cfg cfg' level msg err err' attrs q q' now now' hp hn
    rw [logMessage, logMessage, logPassthrough, logPassthrough, hp, hn]
    by_cases h : cfg'.noop <;> by_cases h2 : cfg'.passthrough <;> simp [h, h2]
  · rfl

/-- C10 witness: the passthrough output at a concrete call is unchanged
when the service name, error object, queue and clock all differ. -/
theorem c10_passthrough_only_caller_attrs_witness :
    (logMessage liveCfg LogLevel.info "m" (some "E") [⟨"a", "1"⟩] [] 0).2
      = (logMessage otherCfg LogLevel.info "m" none [⟨"a", "1"⟩]
          [⟨9, "x", LogLevel.debug, []⟩] 5).2 :=
  c10_passthrough_only_caller_attrs.1 liveCfg otherCfg LogLevel.info "m"
    (some "E") none [⟨"a", "1"⟩] [] [⟨9, "x", LogLevel.debug, []⟩] 0 5 rfl rfl

theorem digitChar_isDigit (k : Nat) (h : k < 10) : (Nat.digitChar k).isDigit = true := by
  interval_cases k <;> decide

theorem natCharsGo_pos (n : Nat) (h : n ≠ 0) :
    natCharsGo n = natCharsGo (n / 10) ++ [Nat.digitChar (n % 10)] := by
  cases n with
  | zero => exact absurd rfl h
  | succ m => rw [natCharsGo]

theorem natCharsGo_all_digits (n : Nat) :
    (natCharsGo n).all (fun c => c.isDigit) = true := by
  induction n using Nat.strong_induction_on with
  | _ n ih =>
    cases n with
    | zero => simp [natCharsGo]
    | succ m =>
      rw [natCharsGo_pos (m + 1) (Nat.succ_ne_zero m)]
      rw [List.all_append]
      have h1 := ih ((m + 1) / 10) (Nat.div_lt_self (Nat.succ_pos m) (by decide))
      have h2 := digitChar_isDigit ((m + 1) % 10) (Nat.mod_lt _ (by decide))
      simp [h1, h2]

theorem natCharsGo_length (k : Nat) :
    ∀ n, 10 ^ k ≤ n → n < 10 ^ (k + 1) → (natCharsGo n).length = k + 1 := by
  induction k with
  | zero =>
    intro n h1 h2
    norm_num at h1 h2
    rw [natCharsGo_pos n (by omega)]
    have h0 : n / 10 = 0 := by omega
    rw [h0]
    simp [natCharsGo]
  | succ k ih =>
    intro n h1 h2
    have hne : n ≠ 0 := by
      have : 0 < 10 ^ (k + 1) := Nat.pos_pow_of_pos _ (by decide)
      omega
    rw [natCharsGo_pos n hne, List.length_append]
    have hp : 10 ^ (k + 1) = 10 ^ k * 10 := by ring
    have hp2 : 10 ^ (k + 1 + 1) = 10 ^ (k + 1) * 10 := by ring
    have hlo : 10 ^ k ≤ n / 10 := by
      rw [hp] at h1
      omega
    have hhi : n / 10 < 10 ^ (k + 1) := by
      rw [hp2] at h2
      omega
    rw [ih (n / 10) hlo hhi]
    simp

theorem natChars_four (n : Nat) (h1 : 1000 ≤ n) (h2 : n ≤ 9999) :
    (natChars n).length = 4 ∧ (natChars n).all (fun c => c.isDigit) = true := by
  rw [natChars, if_neg (by omega)]
  refine ⟨?_, natCharsGo_all_digits n⟩
  have := natCharsGo_length 3 n (by omega) (by norm_num; omega)
  omega

theorem pad2Chars_spec (n : Nat) (h : n < 100) :
    (pad2Chars n).length = 2 ∧ (pad2Chars n).all (fun c => c.isDigit) = true := by
  rw [pad2Chars]
  by_cases h1 : n < 10
  · rw [if_pos h1]
    have := digitChar_isDigit n h1
    simp [this]
  · rw [if_neg h1]
    rw [natChars, if_neg (by omega)]
    refine ⟨?_, natCharsGo_all_digits n⟩
    have := natCharsGo_length 1 n (by omega) (by norm_num; omega)
    omega

theorem pad3Chars_spec (n : Nat) (h : n < 1000) :
    (pad3Chars n).length = 3 ∧ (pad3Chars n).all (fun c => c.isDigit) = true := by
  rw [pad3Chars]
  by_cases h1 : n < 100
  · rw [if_pos h1]
    obtain ⟨hl, hd⟩ := pad2Chars_spec n h1
    refine ⟨by simp [hl], by simp [hd]⟩
  · rw [if_neg h1]
    rw [natChars, if_neg (by omega)]
    refine ⟨?_, natCharsGo_all_digits n⟩
    have := natCharsGo_length 2 n (by omega) (by norm_num; omega)
    omega

theorem expectDigits_append (k : Nat) :
    ∀ (ds rest : List Char), ds.length = k → ds.all (fun c => c.isDigit) = true →
      expectDigits k (ds ++ rest) = some rest := by
  induction k with
  | zero =>
    intro ds rest h1 _
    rw [List.length_eq_zero.mp h1]
    rfl
  | succ k ih =>
    intro ds rest h1 h2
    cases ds with
    | nil => simp at h1
    | cons x ds2 =>
      simp only [List.all_cons, Bool.and_eq_true] at h2
      rw [List.cons_append, expectDigits, if_pos h2.1]
      exact ih ds2 rest (by simpa using h1) h2.2

theorem expectChar_cons (c : Char) (rest : List Char) :
    expectChar c (c :: rest) = some rest := by
  rw [expectChar, if_pos rfl]

theorem hourOf_lt (t : Nat) : hourOf t < 100 := by
  unfold hourOf secondsOfDay
  omega

theorem minuteOf_lt (t : Nat) : minuteOf t < 100 := by
  unfold minuteOf secondsOfDay
  omega

theorem secondOf_lt (t : Nat) : secondOf t < 100 := by
  unfold secondOf secondsOfDay
  omega

theorem doyOf_le (t : Nat) : doyOf t ≤ 600 := by
  unfold doyOf yoeOf doeOf zOf daysOf
  omega

theorem monthOf_lt (t : Nat) : monthOf t < 100 := by
  have h := doyOf_le t
  unfold monthOf mpOf
  split <;> omega

theorem dayOf_lt (t : Nat) : dayOf t < 100 := by
  unfold dayOf mpOf
  omega

theorem yearOf_ge (t : Nat) : 1000 ≤ yearOf t := by
  unfold yearOf yoeOf eraOf doeOf zOf daysOf
  split <;> omega

theorem checkIsoChars_segments (y mo dy hr mi sec ms : List Char)
    (hy : y.length = 4) (hyd : y.all (fun c => c.isDigit) = true)
    (hmo : mo.length = 2) (hmod : mo.all (fun c => c.isDigit) = true)
    (hdy : dy.length = 2) (hdyd : dy.all (fun c => c.isDigit) = true)
    (hhr : hr.length = 2) (hhrd : hr.all (fun c => c.isDigit) = true)
    (hmi : mi.length = 2) (hmid : mi.all (fun c => c.isDigit) = true)
    (hsec : sec.length = 2) (hsecd : sec.all (fun c => c.isDigit) = true)
    (hms : ms.length = 3) (hmsd : ms.all (fun c => c.isDigit) = true) :
    checkIsoChars (y ++ '-' :: mo ++ '-' :: dy ++ 'T' :: hr ++ ':' :: mi
      ++ ':' :: sec ++ '.' :: ms ++ ['Z']) = true := by
  rw [checkIsoChars]
  simp only [List.cons_append, List.append_assoc]
  rw [expectDigits_append 4 y _ hy hyd]
  simp only [Option.bind_eq_bind, Option.some_bind]
  rw [expectChar_cons]
  simp only [Option.some_bind]
  rw [expectDigits_append 2 mo _ hmo hmod]
  simp only [Option.some_bind]
  rw [expectChar_cons]
  simp only [Option.some_bind]
  rw [expectDigits_append 2 dy _ hdy hdyd]
  simp only [Option.some_bind]
  rw [expectChar_cons]
  simp only [Option.some_bind]
  rw [expectDigits_append 2 hr _ hhr hhrd]
  simp only [Option.some_bind]
  rw [expectChar_cons]
  simp only [Option.some_bind]
  rw [expectDigits_append 2 mi _ hmi hmid]
  simp only [Option.some_bind]
  rw [expectChar_cons]
  simp only [Option.some_bind]
  rw [expectDigits_append 2 sec _ hsec hsecd]
  simp only [Option.some_bind]
  rw [expectChar_cons]
  simp only [Option.some_bind]
  rw [expectDigits_append 3 ms _ hms hmsd]
  simp only [Option.some_bind]
  rw [expectChar_cons]
  rfl

theorem timePoint_iso (t : Nat) (hy : yearOf t ≤ 9999) :
    isIso8601MillisZ (timePointToString t) = true := by
  obtain ⟨hyl, hyd⟩ := natChars_four (yearOf t) (yearOf_ge t) hy
  obtain ⟨hml, hmd⟩ := pad2Chars_spec (monthOf t) (monthOf_lt t)
  obtain ⟨hdl, hdd⟩ := pad2Chars_spec (dayOf t) (dayOf_lt t)
  obtain ⟨hhl, hhd⟩ := pad2Chars_spec (hourOf t) (hourOf_lt t)
  obtain ⟨hminl, hmind⟩ := pad2Chars_spec (minuteOf t) (minuteOf_lt t)
  obtain ⟨hsl, hsd⟩ := pad2Chars_spec (secondOf t) (secondOf_lt t)
  obtain ⟨hmsl, hmsd⟩ := pad3Chars_spec (t % 1000) (by omega)
  exact checkIsoChars_segments (natChars (yearOf t)) (pad2Chars (monthOf t))
    (pad2Chars (dayOf t)) (pad2Chars (hourOf t)) (pad2Chars (minuteOf t))
    (pad2Chars (secondOf t)) (pad3Chars (t % 1000))
    hyl hyd hml hmd hdl hdd hhl hhd hminl hmind hsl hsd hmsl hmsd

theorem foldl_jsonSet_obj :
    ∀ (attrs : List (String × String)) (fs : List (String × Json)),
      List.foldl (fun j kv => jsonSet kv.1 (Json.str kv.2) j) (Json.obj fs) attrs
        = Json.obj (List.foldl (fun m kv => mapInsert kv.1 (Json.str kv.2) m) fs attrs) := by
  intro attrs
  induction attrs with
  | nil => intro fs; rfl
  | cons kv rest ih =>
    intro fs
    rw [List.foldl_cons, List.foldl_cons]
    exact ih (mapInsert kv.1 (Json.str kv.2) fs)

theorem attrJsonOf_ne_nil (attrs : List (String × String)) (h : attrs ≠ []) :
    attrJsonOf attrs = Json.obj (attrFields attrs) := by
  cases attrs with
  | nil => exact absurd rfl h
  | cons kv rest =>
    rw [attrJsonOf, attrFields, List.foldl_cons, List.foldl_cons]
    exact foldl_jsonSet_obj rest [(kv.1, Json.str kv.2)]

theorem logEntryJson_fields (m : LogMessage) :
    logEntryJson m = Json.obj [("attributes", attrJsonOf m.attributes),
      ("body", Json.str m.body),
      ("level", Json.str (logLevelToString m.level)),
      ("timestamp", Json.str (timePointToString m.timestamp))] := rfl

theorem sendBatchJson_fields (token : String) (batch : List LogMessage) (h : batch ≠ []) :
    sendBatchJson token batch
      = some (Json.obj [("logs", Json.arr (batch.map logEntryJson)),
          ("token", Json.str token), ("type", Json.str "logs")]) := by
  rw [sendBatchJson, if_neg h]
  rfl

theorem mapInsert_map {γ α : Type} (f : γ → α) (k : String) (v : γ) :
    ∀ (l : List (String × γ)),
      mapInsert k (f v) (l.map (fun kv => (kv.1, f kv.2)))
        = (mapInsert k v l).map (fun kv => (kv.1, f kv.2)) := by
  intro l
  induction l with
  | nil => rfl
  | cons p rest ih =>
    obtain ⟨k₀, v₀⟩ := p
    rw [List.map_cons, mapInsert, mapInsert]
    by_cases h1 : strLt k k₀ = true
    · rw [if_pos h1, if_pos h1]
      rfl
    · rw [if_neg h1, if_neg h1]
      by_cases h2 : k = k₀
      · rw [if_pos h2, if_pos h2]
        rfl
      · rw [if_neg h2, if_neg h2]
        rw [List.map_cons]
        rw [ih]

theorem foldl_insert_map {γ α : Type} (f : γ → α) :
    ∀ (attrs : List (String × γ)) (l : List (String × γ)),
      List.foldl (fun m kv => mapInsert kv.1 (f kv.2) m)
          (l.map (fun kv => (kv.1, f kv.2))) attrs
        = (List.foldl (fun m kv => mapInsert kv.1 kv.2 m) l attrs).map
            (fun kv => (kv.1, f kv.2)) := by
  intro attrs
  induction attrs with
  | nil => intro l; rfl
  | cons kv rest ih =>
    intro l
    rw [List.foldl_cons, List.foldl_cons, mapInsert_map f kv.1 kv.2 l]
    exact ih (mapInsert kv.1 kv.2 l)

theorem attrFields_map (attrs : List (String × String)) :
    attrFields attrs = (strFold attrs).map (fun kv => (kv.1, Json.str kv.2)) := by
  rw [attrFields, strFold]
  exact foldl_insert_map Json.str attrs []

theorem parseAttrs_map :
    ∀ (l : List (String × String)),
      parseAttrs (l.map (fun kv => (kv.1, Json.str kv.2))) = some l := by
  intro l
  induction l with
  | nil => rfl
  | cons kv rest ih =>
    rw [List.map_cons, parseAttrs]
    rw [ih]
    rfl

theorem mapLookup_map {γ α : Type} (f : γ → α) (k : String) :
    ∀ (l : List (String × γ)),
      mapLookup k (l.map (fun kv => (kv.1, f kv.2))) = (mapLookup k l).map f := by
  intro l
  induction l with
  | nil => rfl
  | cons p rest ih =>
    obtain ⟨k₀, v₀⟩ := p
    rw [List.map_cons, mapLookup, mapLookup]
    by_cases h : k = k₀
    · rw [if_pos h, if_pos h]
      rfl
    · rw [if_neg h, if_neg h]
      exact ih

theorem mapLookup_foldl_id (k : String) :
    ∀ (l : List (String × String)) (m₀ : List (String × String)),
      mapLookup k (List.foldl (fun m kv => mapInsert kv.1 kv.2 m) m₀ l)
        = match l.reverse.find? (fun kv => kv.1 == k) with
          | some kv => some kv.2
          | none => mapLookup k m₀ := by
  intro l
  induction l with
  | nil => intro m₀; rfl
  | cons a rest ih =>
    intro m₀
    rw [List.foldl_cons, ih, List.reverse_cons, List.find?_append]
    rcases hfind : rest.reverse.find? (fun kv => kv.1 == k) with - | b
    · rw [hfind]
      simp only [Option.none_or]
      rw [mapLookup_insert]
      cases hpa : (a.1 == k) with
      | true =>
        have hk : k = a.1 := (beq_iff_eq.mp hpa).symm
        simp [List.find?, hpa, hk]
      | false =>
        have hk : ¬ k = a.1 := fun he => by simp [he] at hpa
        simp [List.find?, hpa, hk]
    · rw [hfind]
      simp

theorem mapLookup_eq_find? {α : Type} (k : String) :
    ∀ (l : List (String × α)),
      mapLookup k l = (l.find? (fun kv => kv.1 == k)).map Prod.snd := by
  intro l
  induction l with
  | nil => rfl
  | cons p rest ih =>
    obtain ⟨k₀, v₀⟩ := p
    rw [mapLookup]
    by_cases h : k = k₀
    · simp [List.find?, h]
    · have hb : ((k₀, v₀).1 == k) = false := by
        simp only
        exact beq_false_of_ne (fun he => h he.symm)
      rw [if_neg h]
      simp [List.find?, hb, ih]

theorem find?_reverse_nodup (k : String) :
    ∀ (l : List (String × String)), (l.map Prod.fst).Nodup →
      l.reverse.find? (fun kv => kv.1 == k) = l.find? (fun kv => kv.1 == k) := by
  intro l
  induction l with
  | nil => intro _; rfl
  | cons p rest ih =>
    intro hnd
    rw [List.map_cons, List.nodup_cons] at hnd
    rw [List.reverse_cons, List.find?_append]
    cases hpa : (p.1 == k) with
    | true =>
      have hk : p.1 = k := beq_iff_eq.mp hpa
      have hrest : rest.reverse.find? (fun kv => kv.1 == k) = none := by
        rw [List.find?_eq_none]
        intro x hx
        have hxk : x.1 ≠ k := by
          intro hxe
          apply hnd.1
          have hmem : x.1 ∈ List.map Prod.fst rest :=
            List.mem_map_of_mem Prod.fst (List.mem_reverse.mp hx)
          rw [hxe, ← hk] at hmem
          exact hmem
        simp [beq_false_of_ne hxk]
      rw [hrest]
      simp [List.find?, hpa]
    | false =>
      rw [ih hnd.2]
      rcases hfind : rest.find? (fun kv => kv.1 == k) with - | b
      · rw [hfind]
        simp [List.find?, hpa, hfind]
      · rw [hfind]
        simp [List.find?, hpa, hfind]

theorem strFold_lookup (attrs : List (String × String))
    (hnd : (attrs.map Prod.fst).Nodup) (k : String) :
    mapLookup k (strFold attrs) = mapLookup k attrs := by
  rw [strFold, mapLookup_foldl_id, find?_reverse_nodup k attrs hnd,
    mapLookup_eq_find? k attrs]
  rcases h : attrs.find? (fun kv => kv.1 == k) with - | b <;> simp [h, mapLookup]

theorem attrFields_lookup (attrs : List (String × String))
    (hnd : (attrs.map Prod.fst).Nodup) (k : String) :
    mapLookup k (attrFields attrs) = (mapLookup k attrs).map Json.str := by
  rw [attrFields_map, mapLookup_map, strFold_lookup attrs hnd k]

theorem parseEntry_logEntry (m : LogMessage) (h : m.attributes ≠ []) :
    parseEntry (logEntryJson m)
      = some (logLevelToString m.level, m.body, strFold m.attributes) := by
  have hparse : parseAttrs (attrFields m.attributes) = some (strFold m.attributes) := by
    rw [attrFields_map]
    exact parseAttrs_map (strFold m.attributes)
  rw [logEntryJson_fields, attrJsonOf_ne_nil m.attributes h]
  rw [parseEntry]
  simp [mapLookup, hparse]

theorem parseEntries_map :
    ∀ (batch : List LogMessage), (∀ m ∈ batch, m.attributes ≠ []) →
      parseEntries (batch.map logEntryJson)
        = some (batch.map fun m => (logLevelToString m.level, m.body, strFold m.attributes)) := by
  intro batch
  induction batch with
  | nil => intro _; rfl
  | cons m rest ih =>
    intro h
    rw [List.map_cons, parseEntries, parseEntry_logEntry m (h m (by simp)),
      ih (fun x hx => h x (by simp [hx]))]
    rfl

/-- C6: for every non-empty batch, `sendBatch` serializes exactly one
JSON document of the shape
`{"token": token, "type": "logs", "logs": [...]}` (object fields in
`std::map` key order), where each `logs` entry carries a `timestamp`
string of ISO-8601 form with millisecond precision and a trailing `Z`,
a `body` equal to the event's message, a `level` equal to one of
`DEBUG`, `INFO`, `WARNING`, `ERROR`, and an `attributes` object equal
to the event's attribute mapping. -/
theorem c6_wire_format (token : String) (batch : List LogMessage)
    (hne : batch ≠ [])
    (hattrs : ∀ m ∈ batch, m.attributes ≠ [] ∧ (m.attributes.map Prod.fst).Nodup)
    (hyear : ∀ m ∈ batch, yearOf m.timestamp ≤ 9999) :
    sendBatchJson token batch
      = some (Json.obj [("logs", Json.arr (batch.map logEntryJson)),
          ("token", Json.str token), ("type", Json.str "logs")])
    ∧ ∀ m ∈ batch,
        logEntryJson m
          = Json.obj [("attributes", Json.obj (attrFields m.attributes)),
              ("body", Json.str m.body),
              ("level", Json.str (logLevelToString m.level)),
              ("timestamp", Json.str (timePointToString m.timestamp))]
        ∧ (logLevelToString m.level = "DEBUG" ∨ logLevelToString m.level = "INFO"
            ∨ logLevelToString m.level = "WARNING" ∨ logLevelToString m.level = "ERROR")
        ∧ isIso8601MillisZ (timePointToString m.timestamp) = true
        ∧ (∀ k, mapLookup k (attrFields m.attributes)
              = (mapLookup k m.attributes).map Json.str) := by
  refine ⟨sendBatchJson_fields token batch hne, ?_⟩
  intro m hm
  refine ⟨?_, ?_, timePoint_iso m.timestamp (hyear m hm), ?_⟩
  · rw [logEntryJson_fields, attrJsonOf_ne_nil m.attributes (hattrs m hm).1]
  · cases m.level <;> simp [logLevelToString]
  · intro k
    exact attrFields_lookup m.attributes (hattrs m hm).2 k

/-- C6 witness: the payload of a concrete one-event batch. -/
theorem c6_wire_format_witness :
    sendBatchJson "tk_1234567890"
        [⟨0, "hello", LogLevel.info, [("service.name", "svc")]⟩]
      = some (Json.obj [("logs", Json.arr
            [logEntryJson ⟨0, "hello", LogLevel.info, [("service.name", "svc")]⟩]),
          ("token", Json.str "tk_1234567890"), ("type", Json.str "logs")])
    ∧ isIso8601MillisZ (timePointToString 0) = true :=
  ⟨(c6_wire_format "tk_1234567890"
      [⟨0, "hello", LogLevel.info, [("service.name", "svc")]⟩]
      (by decide) (by decide) (by decide)).1,
   ((c6_wire_format "tk_1234567890"
      [⟨0, "hello", LogLevel.info, [("service.name", "svc")]⟩]
      (by decide) (by decide) (by decide)).2
      ⟨0, "hello", LogLevel.info, [("service.name", "svc")]⟩ (by simp)).2.2.1⟩

/-- C7: serializing a non-empty batch and parsing the produced document
yields, for each event in order, the same level string (one of `DEBUG`,
`INFO`, `WARNING`, `ERROR`), the same body text, and an attribute
mapping equal to the event's attributes under order-independent
(pointwise lookup) equality. -/
theorem c7_roundtrip (token : String) (batch : List LogMessage)
    (hne : batch ≠ [])
    (hattrs : ∀ m ∈ batch, m.attributes ≠ [] ∧ (m.attributes.map Prod.fst).Nodup) :
    ∃ entries, (sendBatchJson token batch).bind parseLogsDoc = some entries
      ∧ List.Forall₂ (fun e (m : LogMessage) =>
          e.1 = logLevelToString m.level
          ∧ (e.1 = "DEBUG" ∨ e.1 = "INFO" ∨ e.1 = "WARNING" ∨ e.1 = "ERROR")
          ∧ e.2.1 = m.body
          ∧ ∀ k, mapLookup k e.2.2 = mapLookup k m.attributes) entries batch := by
  refine ⟨batch.map fun m => (logLevelToString m.level, m.body, strFold m.attributes),
    ?_, ?_⟩
  · rw [sendBatchJson_fields token batch hne]
    rw [Option.some_bind, parseLogsDoc]
    simp only [mapLookup]
    norm_num
    exact parseEntries_map batch (fun m hm => (hattrs m hm).1)
  · clear hne
    induction batch with
    | nil => exact List.Forall₂.nil
    | cons m rest ih =>
      rw [List.map_cons]
      refine List.Forall₂.cons ⟨rfl, ?_, rfl, ?_⟩ (ih (fun x hx => hattrs x (by simp [hx])))
      · cases m.level <;> simp [logLevelToString]
      · intro k
        exact strFold_lookup m.attributes ((hattrs m (by simp)).2) k

/-- C7 witness: round-trip of a concrete one-event batch. -/
theorem c7_roundtrip_witness :
    ∃ entries,
      (sendBatchJson "tk_1234567890"
          [⟨0, "hello", LogLevel.info, [("service.name", "svc")]⟩]).bind parseLogsDoc
        = some entries
      ∧ List.Forall₂ (fun e (m : LogMessage) =>
          e.1 = logLevelToString m.level
          ∧ (e.1 = "DEBUG" ∨ e.1 = "INFO" ∨ e.1 = "WARNING" ∨ e.1 = "ERROR")
          ∧ e.2.1 = m.body
          ∧ ∀ k, mapLookup k e.2.2 = mapLookup k m.attributes) entries
          [⟨0, "hello", LogLevel.info, [("service.name", "svc")]⟩] :=
  c7_roundtrip "tk_1234567890"
    [⟨0, "hello", LogLevel.info, [("service.name", "svc")]⟩]
    (by decide) (by decide)

/-- C9: for every endpoint string the constructed target URL is
`{scheme}://{endpoint}/api/message`, with scheme `http` exactly when
insecure mode is configured and `https` otherwise; the two modes always
produce different URLs, and `insecure=true` with endpoint `example.com`
yields `http://example.com/api/message`. -/
theorem c9_format_endpoint (e : String) :
    formatEndpoint e true = "http://" ++ e ++ "/api/message"
    ∧ formatEndpoint e false = "https://" ++ e ++ "/api/message"
    ∧ formatEndpoint e true ≠ formatEndpoint e false
    ∧ formatEndpoint "example.com" true = "http://example.com/api/message" := by
  refine ⟨rfl, rfl, ?_, rfl⟩
  intro h
  simp only [formatEndpoint, if_pos, if_neg] at h
  have hdata := congrArg String.data h
  simp [String.data_append] at hdata

/-- C8 counterexample: the claim says the construction default for
`passthrough` is `true`, but the direct `Logger` constructor declares
`bool passthrough = false` (`logger.h`). -/
theorem c8_counterexample : ¬ (Logger.defaultPassthrough = true) := by
  decide

/-- C8 (amended): the builder defaults are passthrough `true`, insecure
`false`, noop `false`, maxBatchSize `1000`, batchInterval 100 ms; the
direct-construct defaults are passthrough `false`, insecure `false`,
noop `false`, maxBatchSize `100`, batchInterval 100 ms; and each entry
point honors its own defaults in the configuration it builds. -/
theorem c8_defaults :
    LoggerBuilder.init.passthrough = true
    ∧ LoggerBuilder.init.insecure = false
    ∧ LoggerBuilder.init.noop = false
    ∧ LoggerBuilder.init.maxBatchSize = 1000
    ∧ LoggerBuilder.init.batchInterval = 100
    ∧ Logger.defaultPassthrough = false
    ∧ Logger.defaultInsecure = false
    ∧ Logger.defaultNoop = false
    ∧ Logger.defaultMaxBatchSize = 100
    ∧ Logger.defaultBatchIntervalMs = 100
    ∧ (LoggerBuilder.build LoggerBuilder.init).passthrough = true
    ∧ (LoggerBuilder.build LoggerBuilder.init).noop = false
    ∧ (LoggerBuilder.build LoggerBuilder.init).maxBatchSize = 1000
    ∧ (LoggerBuilder.build LoggerBuilder.init).batchInterval = 100
    ∧ (∀ n e tk, (mkLoggerDefault n e tk).passthrough = false
        ∧ (mkLoggerDefault n e tk).noop = false
        ∧ (mkLoggerDefault n e tk).maxBatchSize = 100
        ∧ (mkLoggerDefault n e tk).batchInterval = 100) := by
  refine ⟨rfl, rfl, rfl, rfl, rfl, rfl, rfl, rfl, rfl, rfl, rfl, rfl, rfl, rfl, ?_⟩
  intro n e tk
  exact ⟨rfl, rfl, rfl, rfl⟩

end Vigilant
